import Mathlib

/-!
Verification of the phosphor-keymap dispatcher (`src/manager.ts`).

The development shallowly embeds the keymap manager: its binding registry,
the sequence matcher, the selector-scoped dispatcher, the pending-state
controller and the event-replay mechanism.  External collaborators are
modelled as oracles:

* the keystroke canonicalizer (`keystrokeForKeydownEvent` from the
  `keyboard` module) is an uninterpreted function `keystrokeOf` producing a
  stroke token (`""` means "not a shortcut");
* the selector engine (`clear-cut` / `Element.matches`) is an
  uninterpreted boolean predicate `selMatch` on (node, selector);
* handlers are identified by a numeric `handlerId`; their return values are
  given by an oracle `hres` (and, for the exception model, `hresE`).

The DOM is a finite forest: nodes are `Nat` ids and the `parent` map is
required to be strictly decreasing, which is exactly what makes the
source's `while (target) target = target.parentElement` loops terminate.

Mutation of the manager (`this._sequence`, `this._events`, ...) is made
explicit: `processKeydownEvent` maps a state and an event to a new state
plus an `Effects` record describing the externally visible actions the
source performs (preventDefault/stopPropagation, handler invocations in
order, and clone dispatches performed by `_replayEvents`).
-/

namespace Keymap

/-- Model of a DOM keyboard event: the fields `cloneKeyboardEvent` and the
dispatcher read, plus `target`/`currentTarget` as node ids. -/
structure KeyEvent where
  type : String
  bubbles : Bool
  cancelable : Bool
  key : String
  keyCode : Nat
  ctrlKey : Bool
  altKey : Bool
  shiftKey : Bool
  metaKey : Bool
  target : Nat
  currentTarget : Nat
deriving DecidableEq

/-- Model of the extended key binding `IExBinding`: the normalized stroke
sequence, the selector, the selector specificity, and the handler
(represented by an id resolved through the handler oracle; `args` is folded
into the oracle).  `oid` is a surrogate for JavaScript object identity:
`createExBinding` returns a fresh object for every registered binding, and
`_removeBindings` compares bindings with `indexOf`, i.e. by identity. -/
structure ExBinding where
  sequence : List String
  selector : String
  handlerId : Nat
  specificity : Nat
  oid : Nat
deriving DecidableEq

/-- Model of the DOM tree together with the selector engine.  `parent_lt`
states that parents have strictly smaller ids; every finite DOM forest can
be numbered this way, and it is what terminates the upward walks. -/
structure Dom where
  parent : Nat → Option Nat
  parent_lt : ∀ n m, parent n = some m → m < n
  selMatch : Nat → String → Bool

/-- Oracles for the external collaborators of the manager. -/
structure Env where
  dom : Dom
  keystrokeOf : KeyEvent → String
  hres : Nat → Bool

/-- Result classification of `matchSequence` (`SequenceMatch` in the
source: `None`, `Exact`, `Partial`). -/
inductive SequenceMatch where
  | SeqNone
  | SeqExact
  | SeqPart
deriving DecidableEq

/-- Embedding of `matchSequence`: length test, then the position-wise
comparison loop (`for i in [0, keySeq.length)`), then the length
discrimination between a proper-prefix match and an exact match. -/
def matchSequence (exbSeq keySeq : List String) : SequenceMatch :=
  if exbSeq.length < keySeq.length then
    SequenceMatch.SeqNone
  else if (List.range keySeq.length).all
      (fun i => decide (exbSeq.getD i "" = keySeq.getD i "")) then
    (if keySeq.length < exbSeq.length then SequenceMatch.SeqPart
     else SequenceMatch.SeqExact)
  else
    SequenceMatch.SeqNone

/-- Result record of `findSequenceMatches` (`IMatchResult`). -/
structure MatchResult where
  exact : List ExBinding
  part : List ExBinding
deriving DecidableEq

/-- Embedding of `findSequenceMatches`: one pass over the registry pushing
every binding into the exact or the proper-prefix list. -/
def findSequenceMatches : List ExBinding → List String → MatchResult
  | [], _ => { exact := [], part := [] }
  | exb :: rest, sequence =>
    let r := findSequenceMatches rest sequence
    match matchSequence exb.sequence sequence with
    | SequenceMatch.SeqExact => { exact := exb :: r.exact, part := r.part }
    | SequenceMatch.SeqPart => { exact := r.exact, part := exb :: r.part }
    | SequenceMatch.SeqNone => r

/-- Ranking relation used by `findOrderedMatches`: the source sorts with
the comparator `(a, b) => b.specificity - a.specificity`, i.e. descending
specificity, relying on the stability of `Array.prototype.sort` for the
first-registered-wins tie-break.  `specGe a b` says `a` may come before
`b`. -/
def specGe (a b : ExBinding) : Prop :=
  b.specificity ≤ a.specificity

instance : DecidableRel specGe := fun a b => Nat.decLe _ _

instance : IsTotal ExBinding specGe :=
  ⟨fun a b => Nat.le_total b.specificity a.specificity⟩

instance : IsTrans ExBinding specGe :=
  ⟨fun _ _ _ hab hbc => Nat.le_trans hbc hab⟩

/-- Embedding of `findOrderedMatches`: filter the bindings whose selector
matches the target node, then stably sort by descending specificity
(`List.insertionSort` is stable, like the modern `Array.prototype.sort`
the source relies on). -/
def findOrderedMatches (dom : Dom) (bindings : List ExBinding) (target : Nat) :
    List ExBinding :=
  List.insertionSort specGe
    (bindings.filter (fun exb => dom.selMatch target exb.selector))

/-- Embedding of the inner `for` loop of `dispatchBindings`: invoke each
handler in order; on the first truthy return stop (the source then calls
`preventDefault`/`stopPropagation` and returns).  Produces the invoked
handler ids in order and whether some handler consumed the event. -/
def invokeHandlers (hres : Nat → Bool) : List ExBinding → List Nat × Bool
  | [] => ([], false)
  | exb :: rest =>
    if hres exb.handlerId then ([exb.handlerId], true)
    else
      let r := invokeHandlers hres rest
      (exb.handlerId :: r.1, r.2)

/-- Embedding of the `while (target)` walk of `dispatchBindings`, starting
at an arbitrary node: try the ordered matches at the node, stop on a
truthy handler, stop after `event.currentTarget`, otherwise ascend to the
parent. -/
def dispatchFrom (env : Env) (bindings : List ExBinding) (ev : KeyEvent)
    (target : Nat) : List Nat × Bool :=
  let pair := invokeHandlers env.hres (findOrderedMatches env.dom bindings target)
  if pair.2 then pair
  else if target = ev.currentTarget then pair
  else
    match _h : env.dom.parent target with
    | none => pair
    | some p =>
      let rest := dispatchFrom env bindings ev p
      (pair.1 ++ rest.1, rest.2)
termination_by target
decreasing_by exact env.dom.parent_lt _ _ _h

/-- Embedding of `dispatchBindings`: the walk begins at `event.target`.
The boolean result records whether `preventDefault`/`stopPropagation` were
called on the event (exactly when some handler returned truthy). -/
def dispatchBindings (env : Env) (bindings : List ExBinding) (ev : KeyEvent) :
    List Nat × Bool :=
  dispatchFrom env bindings ev ev.target

/-- Embedding of the inner `while (target)` loop of
`findMatchingBindings`: walk from the node `target` upward and report
whether the selector matches some node on the path; the walk stops after
`event.currentTarget` or at a parentless node. -/
def selMatchOnPath (dom : Dom) (cur : Nat) (selector : String) (target : Nat) :
    Bool :=
  if dom.selMatch target selector then true
  else if target = cur then false
  else
    match _h : dom.parent target with
    | none => false
    | some p => selMatchOnPath dom cur selector p
termination_by target
decreasing_by exact dom.parent_lt _ _ _h

/-- Embedding of `findMatchingBindings`: keep, in order, the bindings whose
selector matches some node on the event's path from `target` to
`currentTarget`. -/
def findMatchingBindings (dom : Dom) (ev : KeyEvent)
    (bindings : List ExBinding) : List ExBinding :=
  bindings.filter
    (fun exb => selMatchOnPath dom ev.currentTarget exb.selector ev.target)

/-- Embedding of `cloneKeyboardEvent`.  Every `x || y` of the source is
translated with JavaScript truthiness (`""` and `0` are falsy); note that
`event.bubbles || true` and `event.cancelable || true` are identically
`true`.  The `target` field records the node the clone is dispatched on:
`_replayEvents` dispatches it on `evt.target`.  (`which` duplicates
`keyCode` and `view` is host chrome; neither is modelled.) -/
def cloneKeyboardEvent (event : KeyEvent) : KeyEvent :=
  { type := if event.type = "" then "keydown" else event.type
    bubbles := event.bubbles || true
    cancelable := event.cancelable || true
    key := if event.key = "" then "" else event.key
    keyCode := if event.keyCode = 0 then 0 else event.keyCode
    ctrlKey := event.ctrlKey || false
    altKey := event.altKey || false
    shiftKey := event.shiftKey || false
    metaKey := event.metaKey || false
    target := event.target
    currentTarget := event.target }

/-- Clones dispatched by `_replayEvents`: one faithful(?) clone per
suppressed event, on the original target, in original order.  The
`_replaying` flag is raised around the loop; the synchronous re-entries it
silences are covered by `processKeydownEvent`'s first guard. -/
def replayList (events : List KeyEvent) : List KeyEvent :=
  events.map cloneKeyboardEvent

/-- Model of `IExactData`: the pending exact-match snapshot. -/
structure ExactData where
  exact : List ExBinding
  event : KeyEvent
deriving DecidableEq

/-- Mutable state of a `KeymapManager` instance: `_sequence`, `_bindings`,
`_events`, `_exactData`, `_timer` (modelled as the pending delay in
milliseconds, `none` for the cleared timer `0`), `_replaying`. -/
structure KMState where
  sequence : List String
  bindings : List ExBinding
  events : List KeyEvent
  exactData : Option ExactData
  timer : Option Nat
  replaying : Bool
deriving DecidableEq

/-- Externally visible actions of one engine entry point: whether
`preventDefault`/`stopPropagation` were called on the event being
dispatched, the handler ids invoked in order, and the clones dispatched by
`_replayEvents` in order. -/
structure Effects where
  prevented : Bool
  invoked : List Nat
  replayed : List KeyEvent
deriving DecidableEq

/-- Effects of an entry point that did nothing observable. -/
def noEffects : Effects :=
  { prevented := false, invoked := [], replayed := [] }

/-- Embedding of `_clearPendingState`: clear the timer, drop the exact
snapshot, empty the suppressed-event buffer and the accumulated
sequence. -/
def clearPendingState (s : KMState) : KMState :=
  { s with timer := none, exactData := none, events := [], sequence := [] }

/-- Embedding of `processKeydownEvent`.  The four paths of the source in
order: the `_replaying` bail-out; the empty-keystroke bail-out; the
no-match path (`_replayEvents(); _clearPendingState()`); the immediate
dispatch path when no selector-validated proper-prefix match survives
(`_clearPendingState(); dispatchBindings(...)`); and the pending path
(store the snapshot when exact matches exist, suppress the event, restart
the one-second timer). -/
def processKeydownEvent (env : Env) (s : KMState) (ev : KeyEvent) :
    KMState × Effects :=
  if s.replaying then (s, noEffects)
  else
    let keystroke := env.keystrokeOf ev
    if keystroke = "" then (s, noEffects)
    else
      let sequence := s.sequence ++ [keystroke]
      let matchRes := findSequenceMatches s.bindings sequence
      if matchRes.exact = [] ∧ matchRes.part = [] then
        (clearPendingState s,
         { prevented := false, invoked := [], replayed := replayList s.events })
      else
        let filteredPart :=
          if matchRes.part ≠ [] then findMatchingBindings env.dom ev matchRes.part
          else matchRes.part
        if filteredPart = [] then
          let r := dispatchBindings env matchRes.exact ev
          (clearPendingState s,
           { prevented := r.2, invoked := r.1, replayed := [] })
        else
          let exactData :=
            if matchRes.exact ≠ [] then some { exact := matchRes.exact, event := ev }
            else s.exactData
          ({ s with sequence := sequence, events := s.events ++ [ev],
                    exactData := exactData, timer := some 1000 },
           { prevented := true, invoked := [], replayed := [] })

/-- Embedding of `_onPendingTimeout`: zero the timer, then either dispatch
the snapshotted exact matches against the snapshotted event or replay the
suppressed events, and clear all pending state. -/
def onPendingTimeout (env : Env) (s : KMState) : KMState × Effects :=
  match s.exactData with
  | some data =>
    let r := dispatchBindings env data.exact data.event
    (clearPendingState s,
     { prevented := r.2, invoked := r.1, replayed := [] })
  | none =>
    (clearPendingState s,
     { prevented := false, invoked := [], replayed := replayList s.events })

/-- Embedding of `_removeBindings`: the source compacts `this._bindings`
in place, keeping — in their original order — exactly the elements not
found in `exbArray` by object identity (`indexOf`); the `oid` field plays
the role of object identity here. -/
def removeBindings (bindings exbArray : List ExBinding) : List ExBinding :=
  bindings.filter (fun exb => decide (exb ∉ exbArray))

/-- Embedding of `add`: run `createExBinding` on each input binding —
its verdict depends on the external selector engine and keystroke
normalizer, so it enters the model as an `Option ExBinding` — skip the
`null`s, push the valid ones onto the registry in order, and return the
batch array captured by the returned disposable. -/
def addBindings (s : KMState) (results : List (Option ExBinding)) :
    KMState × List ExBinding :=
  let exbArray := results.filterMap id
  ({ s with bindings := s.bindings ++ exbArray }, exbArray)

/-- Invoking a registration handle (the `DisposableDelegate` returned by
`add`): run `_removeBindings` on the captured batch.  A second invocation
re-runs the same removal (the delegate body itself is only executed once
by `phosphor-disposable`, but idempotence holds even without that guard). -/
def applyDispose (s : KMState) (exbArray : List ExBinding) : KMState :=
  { s with bindings := removeBindings s.bindings exbArray }

/-- Registry operation: one `add` batch (already validated) or one handle
invocation. -/
inductive RegOp where
  | addB (batch : List ExBinding)
  | revokeB (batch : List ExBinding)

/-- Action of one registry operation on the flat binding collection. -/
def applyOp (regs : List ExBinding) : RegOp → List ExBinding
  | RegOp.addB batch => regs ++ batch
  | RegOp.revokeB batch => removeBindings regs batch

/-- Action of a whole history of registry operations. -/
def applyOps (regs : List ExBinding) (ops : List RegOp) : List ExBinding :=
  ops.foldl applyOp regs

/-- Registration order of a history: all added batches, concatenated in
order. -/
def addedConcat : List RegOp → List ExBinding
  | [] => []
  | RegOp.addB batch :: ops => batch ++ addedConcat ops
  | RegOp.revokeB _ :: ops => addedConcat ops

/-- Specification-side description of the dispatch walk: the node path
from `target` up to and including `currentTarget` (or up to a parentless
node). -/
def pathFrom (dom : Dom) (cur : Nat) (target : Nat) : List Nat :=
  if target = cur then [target]
  else
    match _h : dom.parent target with
    | none => [target]
    | some p => target :: pathFrom dom cur p
termination_by target
decreasing_by exact dom.parent_lt _ _ _h

/-- Specification-side description of the early-exit evaluation: the
handlers actually invoked are the longest prefix of the candidate order up
to and including the first truthy one. -/
def takeUntilTrue (hres : Nat → Bool) : List Nat → List Nat
  | [] => []
  | x :: rest => if hres x then [x] else x :: takeUntilTrue hres rest

/-- Specification-side candidate visit order of the scoped dispatcher:
walk the path outward from `target`, and at each node list the matching
candidates in descending specificity with registration order breaking
ties. -/
def visitOrder (env : Env) (bindings : List ExBinding) (ev : KeyEvent)
    (target : Nat) : List Nat :=
  (pathFrom env.dom ev.currentTarget target).flatMap
    (fun n => (findOrderedMatches env.dom bindings n).map
      (fun exb => exb.handlerId))

/-- Oracles for the exception model of claim C5: handler results are
`Except` values, `Except.error` standing for a thrown exception. -/
structure EnvE where
  dom : Dom
  keystrokeOf : KeyEvent → String
  hresE : Nat → Except String Bool

/-- Exception-transparent embedding of the inner `for` loop of
`dispatchBindings`: the source invokes `handler(args)` with no
`try`/`catch`, so a thrown exception aborts the loop and propagates. -/
def invokeHandlersE (hresE : Nat → Except String Bool) :
    List ExBinding → Except String (List Nat × Bool)
  | [] => Except.ok ([], false)
  | exb :: rest =>
    match hresE exb.handlerId with
    | Except.error e => Except.error e
    | Except.ok true => Except.ok ([exb.handlerId], true)
    | Except.ok false =>
      match invokeHandlersE hresE rest with
      | Except.error e => Except.error e
      | Except.ok r => Except.ok (exb.handlerId :: r.1, r.2)

/-- Exception-transparent embedding of the `dispatchBindings` walk. -/
def dispatchFromE (env : EnvE) (bindings : List ExBinding) (ev : KeyEvent)
    (target : Nat) : Except String (List Nat × Bool) :=
  match invokeHandlersE env.hresE (findOrderedMatches env.dom bindings target) with
  | Except.error e => Except.error e
  | Except.ok pair =>
    if pair.2 then Except.ok pair
    else if target = ev.currentTarget then Except.ok pair
    else
      match _h : env.dom.parent target with
      | none => Except.ok pair
      | some p =>
        match dispatchFromE env bindings ev p with
        | Except.error e => Except.error e
        | Except.ok rest => Except.ok (pair.1 ++ rest.1, rest.2)
termination_by target
decreasing_by exact env.dom.parent_lt _ _ _h

/-- Exception-transparent `dispatchBindings`. -/
def dispatchBindingsE (env : EnvE) (bindings : List ExBinding)
    (ev : KeyEvent) : Except String (List Nat × Bool) :=
  dispatchFromE env bindings ev ev.target

/-- Exception-transparent embedding of `processKeydownEvent`: identical to
`processKeydownEvent` except that a handler exception raised inside
`dispatchBindings` propagates out (there is no `try`/`catch` anywhere on
the path). -/
def processKeydownEventE (env : EnvE) (s : KMState) (ev : KeyEvent) :
    Except String (KMState × Effects) :=
  if s.replaying then Except.ok (s, noEffects)
  else
    let keystroke := env.keystrokeOf ev
    if keystroke = "" then Except.ok (s, noEffects)
    else
      let sequence := s.sequence ++ [keystroke]
      let matchRes := findSequenceMatches s.bindings sequence
      if matchRes.exact = [] ∧ matchRes.part = [] then
        Except.ok (clearPendingState s,
          { prevented := false, invoked := [], replayed := replayList s.events })
      else
        let filteredPart :=
          if matchRes.part ≠ [] then findMatchingBindings env.dom ev matchRes.part
          else matchRes.part
        if filteredPart = [] then
          match dispatchBindingsE env matchRes.exact ev with
          | Except.error e => Except.error e
          | Except.ok r =>
            Except.ok (clearPendingState s,
              { prevented := r.2, invoked := r.1, replayed := [] })
        else
          let exactData :=
            if matchRes.exact ≠ [] then some { exact := matchRes.exact, event := ev }
            else s.exactData
          let s' : KMState :=
            { s with sequence := sequence, events := s.events ++ [ev],
                     exactData := exactData, timer := some 1000 }
          Except.ok (s', { prevented := true, invoked := [], replayed := [] })

/-- Concrete one-node DOM used by the concrete scenarios: node `0` with no
parent; the selector engine matches exactly the pair (node 0, `"#m"`). -/
def dom0 : Dom where
  parent := fun _ => none
  parent_lt := by intro n m h; simp at h
  selMatch := fun n s => decide (n = 0) && decide (s = "#m")

/-- Keydown event at node `0` (also the current target) whose canonical
keystroke is its `key` field. -/
def mkEvent (k : String) : KeyEvent :=
  { type := "keydown", bubbles := true, cancelable := true, key := k
    keyCode := 68, ctrlKey := false, altKey := false, shiftKey := false
    metaKey := false, target := 0, currentTarget := 0 }

/-- Concrete oracle bundle: the canonicalizer reads the `key` field and
every handler declines. -/
def envC : Env where
  dom := dom0
  keystrokeOf := fun ev => ev.key
  hres := fun _ => false

/-- Binding `['a', 'q']` scoped to `"#m"` (which matches node 0). -/
def b1 : ExBinding :=
  { sequence := ["a", "q"], selector := "#m", handlerId := 1
    specificity := 1, oid := 1 }

/-- Binding `['a', 'b', 'c']` scoped to `"#z"` (which matches nothing). -/
def b2 : ExBinding :=
  { sequence := ["a", "b", "c"], selector := "#z", handlerId := 2
    specificity := 1, oid := 2 }

/-- Pending state reached from idle by stroke `'a'` with `b1` and `b2`
registered: both are proper-prefix matches for `['a']`, `b1`'s selector
matches the path, so the first event was suppressed. -/
def sC1 : KMState :=
  { sequence := ["a"], bindings := [b1, b2], events := [mkEvent "a"]
    exactData := none, timer := some 1000, replaying := false }

/-- Single-stroke binding `['a']` scoped to `"#m"`. -/
def b5 : ExBinding :=
  { sequence := ["a"], selector := "#m", handlerId := 5
    specificity := 1, oid := 5 }

/-- Idle state with only `b5` registered. -/
def sC5 : KMState :=
  { sequence := [], bindings := [b5], events := [], exactData := none
    timer := none, replaying := false }

/-- Exception-model oracle bundle in which every handler throws. -/
def envC5 : EnvE where
  dom := dom0
  keystrokeOf := fun ev => ev.key
  hresE := fun _ => Except.error "Whoops"

/-- Suppressed keydown event that does not bubble and is not cancelable:
the failing input for the clone-faithfulness claim. -/
def evBub : KeyEvent :=
  { type := "keydown", bubbles := false, cancelable := false, key := "d"
    keyCode := 68, ctrlKey := true, altKey := false, shiftKey := false
    metaKey := false, target := 0, currentTarget := 0 }

/-- Empty manager state. -/
def emptyState : KMState :=
  { sequence := [], bindings := [], events := [], exactData := none
    timer := none, replaying := false }

/-- Exact-match snapshot referencing `b1`, used to exercise disposal while
a snapshot is pending. -/
def dC9 : ExactData :=
  { exact := [b1], event := mkEvent "a" }

/-- Pending state holding the snapshot `dC9`. -/
def sC9 : KMState :=
  { sequence := ["a"], bindings := [b1], events := [mkEvent "a"]
    exactData := some dC9, timer := some 1000, replaying := false }

/-- Idle state with only `b1` registered, used to exercise the
partial-preserving stroke path. -/
def sW4 : KMState :=
  { sequence := [], bindings := [b1], events := [], exactData := none
    timer := none, replaying := false }

theorem matchSequence_eq_SeqNone_iff (exbSeq keySeq : List String) :
    matchSequence exbSeq keySeq = SequenceMatch.SeqNone ↔
      (exbSeq.length < keySeq.length ∨
        ∃ i, i < keySeq.length ∧ exbSeq[i]? ≠ keySeq[i]?) := by
  unfold matchSequence
  split
  · rename_i hlen
    simp only [true_iff, iff_true]
    exact Or.inl hlen
  · rename_i hlen
    push_neg at hlen
    split
    · rename_i hall
      simp only [List.all_eq_true, List.mem_range, decide_eq_true_eq] at hall
      constructor
      · intro h; split at h <;> simp_all
      · rintro (h | ⟨i, hi, hne⟩)
        · omega
        · exfalso
          apply hne
          have h1 := hall i hi
          have h2 : i < exbSeq.length := lt_of_lt_of_le hi hlen
          rw [List.getD_eq_getElem?_getD, List.getD_eq_getElem?_getD] at h1
          rw [List.getElem?_eq_getElem hi, List.getElem?_eq_getElem h2] at h1 ⊢
          simpa using h1
    · rename_i hall
      simp only [List.all_eq_true, List.mem_range, decide_eq_true_eq] at hall
      push_neg at hall
      obtain ⟨i, hi, hne⟩ := hall
      simp only [true_iff, iff_true]
      refine Or.inr ⟨i, hi, ?_⟩
      have h2 : i < exbSeq.length := lt_of_lt_of_le hi hlen
      rw [List.getElem?_eq_getElem hi, List.getElem?_eq_getElem h2]
      simpa [List.getD_eq_getElem?_getD, List.getElem?_eq_getElem hi,
        List.getElem?_eq_getElem h2] using hne

theorem matchSequence_eq_SeqExact_iff (exbSeq keySeq : List String) :
    matchSequence exbSeq keySeq = SequenceMatch.SeqExact ↔
      (exbSeq.length = keySeq.length ∧
        ∀ i, i < keySeq.length → exbSeq[i]? = keySeq[i]?) := by
  unfold matchSequence
  split
  · rename_i hlen
    constructor
    · intro h; cases h
    · rintro ⟨h, -⟩; omega
  · rename_i hlen
    push_neg at hlen
    split
    · rename_i hall
      simp only [List.all_eq_true, List.mem_range, decide_eq_true_eq] at hall
      split
      · rename_i hgt
        constructor
        · intro h; cases h
        · rintro ⟨h, -⟩; omega
      · rename_i hgt
        push_neg at hgt
        have hlen' : exbSeq.length = keySeq.length := le_antisymm hgt hlen
        simp only [true_iff, iff_true]
        refine ⟨hlen', fun i hi => ?_⟩
        have h1 := hall i hi
        have h2 : i < exbSeq.length := by omega
        rw [List.getD_eq_getElem?_getD, List.getD_eq_getElem?_getD] at h1
        rw [List.getElem?_eq_getElem hi, List.getElem?_eq_getElem h2] at h1 ⊢
        simpa using h1
    · rename_i hall
      simp only [List.all_eq_true, List.mem_range, decide_eq_true_eq] at hall
      push_neg at hall
      obtain ⟨i, hi, hne⟩ := hall
      constructor
      · intro h; cases h
      · rintro ⟨-, hagree⟩
        exfalso
        apply hne
        have h2 : i < exbSeq.length := lt_of_lt_of_le hi hlen
        have := hagree i hi
        rw [List.getElem?_eq_getElem hi, List.getElem?_eq_getElem h2] at this
        simpa [List.getD_eq_getElem?_getD, List.getElem?_eq_getElem hi,
          List.getElem?_eq_getElem h2] using this

theorem matchSequence_eq_SeqPart_iff (exbSeq keySeq : List String) :
    matchSequence exbSeq keySeq = SequenceMatch.SeqPart ↔
      (keySeq.length < exbSeq.length ∧
        ∀ i, i < keySeq.length → exbSeq[i]? = keySeq[i]?) := by
  unfold matchSequence
  split
  · rename_i hlen
    constructor
    · intro h; cases h
    · rintro ⟨h, -⟩; omega
  · rename_i hlen
    push_neg at hlen
    split
    · rename_i hall
      simp only [List.all_eq_true, List.mem_range, decide_eq_true_eq] at hall
      split
      · rename_i hgt
        simp only [true_iff, iff_true]
        refine ⟨hgt, fun i hi => ?_⟩
        have h1 := hall i hi
        have h2 : i < exbSeq.length := lt_of_lt_of_le hi hlen
        rw [List.getD_eq_getElem?_getD, List.getD_eq_getElem?_getD] at h1
        rw [List.getElem?_eq_getElem hi, List.getElem?_eq_getElem h2] at h1 ⊢
        simpa using h1
      · rename_i hgt
        constructor
        · intro h; cases h
        · rintro ⟨h, -⟩; omega
    · rename_i hall
      simp only [List.all_eq_true, List.mem_range, decide_eq_true_eq] at hall
      push_neg at hall
      obtain ⟨i, hi, hne⟩ := hall
      constructor
      · intro h; cases h
      · rintro ⟨-, hagree⟩
        exfalso
        apply hne
        have h2 : i < exbSeq.length := lt_of_lt_of_le hi hlen
        have := hagree i hi
        rw [List.getElem?_eq_getElem hi, List.getElem?_eq_getElem h2] at this
        simpa [List.getD_eq_getElem?_getD, List.getElem?_eq_getElem hi,
          List.getElem?_eq_getElem h2] using this

theorem findSequenceMatches_exact_eq_filter (bindings : List ExBinding)
    (S : List String) :
    (findSequenceMatches bindings S).exact =
      bindings.filter
        (fun exb => decide (matchSequence exb.sequence S = SequenceMatch.SeqExact)) := by
  induction bindings with
  | nil => rfl
  | cons exb rest ih =>
    unfold findSequenceMatches
    rcases h : matchSequence exb.sequence S with _ | _ | _ <;>
      simp [List.filter_cons, h, ih]

theorem findSequenceMatches_part_eq_filter (bindings : List ExBinding)
    (S : List String) :
    (findSequenceMatches bindings S).part =
      bindings.filter
        (fun exb => decide (matchSequence exb.sequence S = SequenceMatch.SeqPart)) := by
  induction bindings with
  | nil => rfl
  | cons exb rest ih =>
    unfold findSequenceMatches
    rcases h : matchSequence exb.sequence S with _ | _ | _ <;>
      simp [List.filter_cons, h, ih]


theorem invokeHandlers_eq (hres : Nat → Bool) (l : List ExBinding) :
    invokeHandlers hres l =
      (takeUntilTrue hres (l.map (fun exb => exb.handlerId)),
       (l.map (fun exb => exb.handlerId)).any hres) := by
  induction l with
  | nil => rfl
  | cons exb rest ih =>
    cases h : hres exb.handlerId <;>
      simp [invokeHandlers, takeUntilTrue, h, ih]

theorem takeUntilTrue_of_any_false (hres : Nat → Bool) (l : List Nat)
    (h : l.any hres = false) : takeUntilTrue hres l = l := by
  induction l with
  | nil => rfl
  | cons x rest ih =>
    simp only [List.any_cons, Bool.or_eq_false_iff] at h
    simp [takeUntilTrue, h.1, ih h.2]

theorem takeUntilTrue_append (hres : Nat → Bool) (xs ys : List Nat) :
    takeUntilTrue hres (xs ++ ys) =
      if xs.any hres then takeUntilTrue hres xs
      else xs ++ takeUntilTrue hres ys := by
  induction xs with
  | nil => simp [takeUntilTrue]
  | cons x rest ih =>
    cases h : hres x
    · cases h2 : rest.any hres <;>
        simp [takeUntilTrue, h, List.any_cons, h2, ih]
    · simp [takeUntilTrue, h, List.any_cons]

theorem pathFrom_exists_cons (dom : Dom) (cur target : Nat) :
    ∃ tail, pathFrom dom cur target = target :: tail := by
  rw [pathFrom]
  split
  · exact ⟨[], rfl⟩
  · split
    · exact ⟨[], rfl⟩
    · exact ⟨_, rfl⟩

theorem dispatchFrom_spec (env : Env) (bindings : List ExBinding)
    (ev : KeyEvent) :
    ∀ target, dispatchFrom env bindings ev target =
      (takeUntilTrue env.hres (visitOrder env bindings ev target),
       (visitOrder env bindings ev target).any env.hres) := by
  intro target
  induction target using Nat.strong_induction_on with
  | _ target ih =>
    rw [dispatchFrom]
    rw [visitOrder, pathFrom]
    have hinv := invokeHandlers_eq env.hres
      (findOrderedMatches env.dom bindings target)
    by_cases hcur : target = ev.currentTarget
    · subst hcur
      cases hany : ((findOrderedMatches env.dom bindings ev.currentTarget).map
          (fun exb => exb.handlerId)).any env.hres <;>
        simp [hinv, hany, List.flatMap_cons]
    · cases hp : env.dom.parent target with
      | none =>
        cases hany : ((findOrderedMatches env.dom bindings target).map
            (fun exb => exb.handlerId)).any env.hres <;>
          simp [hinv, hcur, hp, hany, List.flatMap_cons]
      | some p =>
        have hrec := ih p (env.dom.parent_lt _ _ hp)
        rw [visitOrder] at hrec
        cases hany : ((findOrderedMatches env.dom bindings target).map
            (fun exb => exb.handlerId)).any env.hres
        · simp [hinv, hcur, hp, hany, hrec, List.flatMap_cons,
            takeUntilTrue_append, List.any_append,
            takeUntilTrue_of_any_false env.hres _ hany]
        · simp [hinv, hcur, hp, hany, List.flatMap_cons,
            takeUntilTrue_append, List.any_append]

theorem filter_orderedInsert_specEq (x : ExBinding) (l : List ExBinding)
    (k : Nat) :
    (List.orderedInsert specGe x l).filter
        (fun b => decide (b.specificity = k)) =
      if x.specificity = k then
        x :: l.filter (fun b => decide (b.specificity = k))
      else l.filter (fun b => decide (b.specificity = k)) := by
  induction l with
  | nil =>
    by_cases hx : x.specificity = k <;>
      simp [List.orderedInsert, List.filter_cons, hx]
  | cons y ys ih =>
    by_cases hxy : specGe x y
    · by_cases hx : x.specificity = k <;>
        simp [List.orderedInsert, hxy, List.filter_cons, hx]
    · have hlt : x.specificity < y.specificity := by
        unfold specGe at hxy; omega
      by_cases hyk : y.specificity = k
      · have hxk : x.specificity ≠ k := by omega
        simp [List.orderedInsert, hxy, List.filter_cons, hyk, hxk, ih]
      · simp [List.orderedInsert, hxy, List.filter_cons, hyk, ih]

theorem filter_insertionSort_specEq (l : List ExBinding) (k : Nat) :
    (List.insertionSort specGe l).filter
        (fun b => decide (b.specificity = k)) =
      l.filter (fun b => decide (b.specificity = k)) := by
  induction l with
  | nil => rfl
  | cons x xs ih =>
    by_cases hx : x.specificity = k <;>
      simp [List.insertionSort, filter_orderedInsert_specEq,
        List.filter_cons, hx, ih]

theorem findOrderedMatches_perm (dom : Dom) (bindings : List ExBinding)
    (target : Nat) :
    (findOrderedMatches dom bindings target).Perm
      (bindings.filter (fun exb => dom.selMatch target exb.selector)) :=
  List.perm_insertionSort specGe _

theorem findOrderedMatches_sorted (dom : Dom) (bindings : List ExBinding)
    (target : Nat) :
    (findOrderedMatches dom bindings target).Sorted specGe :=
  List.sorted_insertionSort specGe _

theorem mem_findOrderedMatches (dom : Dom) (bindings : List ExBinding)
    (target : Nat) (exb : ExBinding) :
    exb ∈ findOrderedMatches dom bindings target ↔
      (exb ∈ bindings ∧ dom.selMatch target exb.selector = true) := by
  rw [(findOrderedMatches_perm dom bindings target).mem_iff]
  simp [List.mem_filter]

theorem visitOrder_nil_bindings (env : Env) (ev : KeyEvent) (target : Nat) :
    visitOrder env [] ev target = [] := by
  simp [visitOrder, findOrderedMatches]

theorem dispatchBindings_nil (env : Env) (ev : KeyEvent) :
    dispatchBindings env [] ev = ([], false) := by
  rw [dispatchBindings, dispatchFrom_spec]
  simp [visitOrder_nil_bindings, takeUntilTrue]

theorem mem_removeBindings (bindings exbArray : List ExBinding)
    (b : ExBinding) :
    b ∈ removeBindings bindings exbArray ↔ (b ∈ bindings ∧ b ∉ exbArray) := by
  simp [removeBindings, List.mem_filter]

theorem removeBindings_sublist (bindings exbArray : List ExBinding) :
    (removeBindings bindings exbArray).Sublist bindings :=
  List.filter_sublist _

theorem removeBindings_idem (bindings exbArray : List ExBinding) :
    removeBindings (removeBindings bindings exbArray) exbArray =
      removeBindings bindings exbArray := by
  simp [removeBindings, List.filter_filter]

theorem removeBindings_append (regs exbArray : List ExBinding) :
    removeBindings (regs ++ exbArray) exbArray =
      removeBindings regs exbArray := by
  rw [removeBindings, removeBindings, List.filter_append]
  have h : exbArray.filter (fun exb => decide (exb ∉ exbArray)) = [] := by
    rw [List.filter_eq_nil_iff]
    intro a ha
    simp [ha]
  rw [h, List.append_nil]

theorem removeBindings_of_fresh (regs exbArray : List ExBinding)
    (h : ∀ b ∈ exbArray, b ∉ regs) :
    removeBindings regs exbArray = regs := by
  rw [removeBindings, List.filter_eq_self]
  intro a ha
  simp only [decide_eq_true_eq]
  intro hmem
  exact h a hmem ha

theorem applyOps_sublist (ops : List RegOp) :
    ∀ (regs acc : List ExBinding), regs.Sublist acc →
      (applyOps regs ops).Sublist (acc ++ addedConcat ops) := by
  induction ops with
  | nil =>
    intro regs acc h
    simpa [applyOps, addedConcat] using h
  | cons op rest ih =>
    intro regs acc h
    cases op with
    | addB batch =>
      have h2 : (regs ++ batch).Sublist (acc ++ batch) :=
        h.append (List.Sublist.refl batch)
      have h3 := ih (regs ++ batch) (acc ++ batch) h2
      simpa [applyOps, applyOp, addedConcat, List.append_assoc] using h3
    | revokeB batch =>
      have h2 : (removeBindings regs batch).Sublist acc :=
        (removeBindings_sublist regs batch).trans h
      have h3 := ih (removeBindings regs batch) acc h2
      simpa [applyOps, applyOp, addedConcat] using h3


/-- C2: for every registered binding `B` and non-empty accumulated
sequence `S`, `matchSequence` classifies `B` as None iff `|B.sequence| <
|S|` or some position `i < |S|` differs, Exact iff the lengths agree and
all positions agree, and Partial iff `|B.sequence| > |S|` and the first
`|S|` positions agree; `findSequenceMatches` returns the exact and the
proper-prefix lists as order-preserving filters of the registry (hence
sublists of it).  The matcher is a pure function of the registry snapshot
and `S` by construction — mirroring that the source touches no state. -/
theorem c2_sequence_matcher_correct (B : ExBinding) (S : List String)
    (_hS : S ≠ []) :
    (matchSequence B.sequence S = SequenceMatch.SeqNone ↔
       (B.sequence.length < S.length ∨
         ∃ i, i < S.length ∧ B.sequence[i]? ≠ S[i]?)) ∧
    (matchSequence B.sequence S = SequenceMatch.SeqExact ↔
       (B.sequence.length = S.length ∧
         ∀ i, i < S.length → B.sequence[i]? = S[i]?)) ∧
    (matchSequence B.sequence S = SequenceMatch.SeqPart ↔
       (S.length < B.sequence.length ∧
         ∀ i, i < S.length → B.sequence[i]? = S[i]?)) ∧
    (∀ bindings : List ExBinding,
       (findSequenceMatches bindings S).exact =
         bindings.filter (fun exb =>
           decide (matchSequence exb.sequence S = SequenceMatch.SeqExact)) ∧
       (findSequenceMatches bindings S).part =
         bindings.filter (fun exb =>
           decide (matchSequence exb.sequence S = SequenceMatch.SeqPart)) ∧
       (findSequenceMatches bindings S).exact.Sublist bindings ∧
       (findSequenceMatches bindings S).part.Sublist bindings) := by
  refine ⟨matchSequence_eq_SeqNone_iff _ _, matchSequence_eq_SeqExact_iff _ _,
    matchSequence_eq_SeqPart_iff _ _, fun bindings => ?_⟩
  refine ⟨findSequenceMatches_exact_eq_filter _ _,
    findSequenceMatches_part_eq_filter _ _, ?_, ?_⟩
  · rw [findSequenceMatches_exact_eq_filter]
    exact List.filter_sublist _
  · rw [findSequenceMatches_part_eq_filter]
    exact List.filter_sublist _

/-- Witness for C2 at the binding `b1` and the sequence `["a"]`. -/
theorem c2_witness : (findSequenceMatches [b1] ["a"]).part.Sublist [b1] :=
  ((c2_sequence_matcher_correct b1 ["a"] (by decide)).2.2.2 [b1]).2.2.2

/-- C7: while the `_replaying` flag holds, `processKeydownEvent` returns
immediately: the state is unchanged — uniformly in the event, which is
never read — and no observable action is taken, so replayed events never
re-enter the matching logic and can never start a new pending cycle. -/
theorem c7_replaying_guard (env : Env) (s : KMState) (ev : KeyEvent)
    (h : s.replaying = true) :
    processKeydownEvent env s ev = (s, noEffects) := by
  simp [processKeydownEvent, h]

/-- Witness for C7: a concrete replaying state is left untouched. -/
theorem c7_witness :
    processKeydownEvent envC { sC5 with replaying := true } (mkEvent "a") =
      ({ sC5 with replaying := true }, noEffects) :=
  c7_replaying_guard envC { sC5 with replaying := true } (mkEvent "a") rfl

/-- C8: the handle returned by `add` captures exactly the
successfully-registered members of the batch; invoking it removes exactly
those members (membership characterization), removes nothing else (for a
batch of fresh objects the registry returns to its pre-`add` contents),
and a second invocation leaves the whole manager state identical to one
invocation. -/
theorem c8_handle_revocation (s : KMState) (results : List (Option ExBinding)) :
    ((addBindings s results).2 = results.filterMap id) ∧
    (∀ b, b ∈ (applyDispose (addBindings s results).1
          (addBindings s results).2).bindings ↔
       (b ∈ (addBindings s results).1.bindings ∧
         b ∉ (addBindings s results).2)) ∧
    ((∀ b ∈ (addBindings s results).2, b ∉ s.bindings) →
       (applyDispose (addBindings s results).1
         (addBindings s results).2).bindings = s.bindings) ∧
    (∀ exbArray : List ExBinding,
       applyDispose (applyDispose s exbArray) exbArray =
         applyDispose s exbArray) := by
  refine ⟨rfl, fun b => mem_removeBindings _ _ b, ?_, fun exbArray => ?_⟩
  · intro hfresh
    show removeBindings (s.bindings ++ results.filterMap id)
      (results.filterMap id) = s.bindings
    rw [removeBindings_append]
    exact removeBindings_of_fresh _ _ hfresh
  · simp [applyDispose, removeBindings_idem]

/-- Witness for C8: registering `[some b1, none]` on the empty manager and
revoking returns the registry to empty. -/
theorem c8_witness :
    (applyDispose (addBindings emptyState [some b1, none]).1
      (addBindings emptyState [some b1, none]).2).bindings =
      emptyState.bindings :=
  (c8_handle_revocation emptyState [some b1, none]).2.2.1 (by decide)

/-- C9: invoking a handle touches only the registry: the accumulated
sequence, the suppressed events, the timer, the replaying flag and the
captured exact snapshot are unchanged, the timeout behaviour is
identical, and in particular a snapshot referencing a removed binding is
still dispatched on expiry (the dispatch reads the snapshot, not the
registry). -/
theorem c9_revoke_preserves_pending (env : Env) (s : KMState)
    (exbArray : List ExBinding) :
    ((applyDispose s exbArray).sequence = s.sequence ∧
     (applyDispose s exbArray).events = s.events ∧
     (applyDispose s exbArray).timer = s.timer ∧
     (applyDispose s exbArray).exactData = s.exactData ∧
     (applyDispose s exbArray).replaying = s.replaying) ∧
    (onPendingTimeout env (applyDispose s exbArray)).2 =
      (onPendingTimeout env s).2 ∧
    (∀ d, s.exactData = some d →
      (onPendingTimeout env (applyDispose s exbArray)).2.invoked =
        (dispatchBindings env d.exact d.event).1) := by
  refine ⟨⟨rfl, rfl, rfl, rfl, rfl⟩, ?_, ?_⟩
  · cases h : s.exactData <;> simp [onPendingTimeout, applyDispose, h]
  · intro d hd
    simp [onPendingTimeout, applyDispose, hd]

/-- Witness for C9: revoking the very batch `[b1]` that the pending
snapshot `dC9` references still leaves the timeout dispatching `dC9`. -/
theorem c9_witness :
    (onPendingTimeout envC (applyDispose sC9 [b1])).2.invoked =
      (dispatchBindings envC dC9.exact dC9.event).1 :=
  (c9_revoke_preserves_pending envC sC9 [b1]).2.2 dC9 rfl

/-- C10: batch removal keeps the surviving bindings in their original
relative order (the result is a sublist of the registry, with membership
exactly the non-batch members), `add` appends at the end, and hence after
any history of add/revoke operations the registry is an order-preserving
subsequence of the full registration order — which is what makes the
first-registered-wins tie-break well-defined. -/
theorem c10_registry_order_invariant (regs batch : List ExBinding)
    (ops : List RegOp) :
    (removeBindings regs batch).Sublist regs ∧
    (∀ b, b ∈ removeBindings regs batch ↔ (b ∈ regs ∧ b ∉ batch)) ∧
    applyOp regs (RegOp.addB batch) = regs ++ batch ∧
    (applyOps [] ops).Sublist (addedConcat ops) := by
  refine ⟨removeBindings_sublist _ _, fun b => mem_removeBindings _ _ b,
    rfl, ?_⟩
  simpa using applyOps_sublist ops [] [] (List.Sublist.refl [])


/-- C3: the handlers invoked by `dispatchBindings` are exactly the prefix,
up to and including the first truthy handler, of the candidate visit
order: nodes from `event.target` upward stopping after
`event.currentTarget`, and at each node the selector-matching candidates
sorted by descending specificity with registration order breaking ties
(the per-node order is a permutation of the order-preserving filter,
sorted, and within every specificity class equal to the registration
order).  Consequently a candidate matching the target node itself is
tried before any candidate whose selector does not match the target —
regardless of specificity. -/
theorem c3_dispatch_order (env : Env) (bindings : List ExBinding)
    (ev : KeyEvent) :
    ((dispatchBindings env bindings ev).1 =
       takeUntilTrue env.hres (visitOrder env bindings ev ev.target)) ∧
    (∀ n, (findOrderedMatches env.dom bindings n).Perm
       (bindings.filter (fun exb => env.dom.selMatch n exb.selector))) ∧
    (∀ n, (findOrderedMatches env.dom bindings n).Sorted specGe) ∧
    (∀ n k, (findOrderedMatches env.dom bindings n).filter
         (fun exb => decide (exb.specificity = k)) =
       (bindings.filter (fun exb => env.dom.selMatch n exb.selector)).filter
         (fun exb => decide (exb.specificity = k))) ∧
    (∀ a b : ExBinding, a ∈ bindings →
       env.dom.selMatch ev.target a.selector = true →
       env.dom.selMatch ev.target b.selector = false →
       (∀ c ∈ bindings, env.dom.selMatch ev.target c.selector = true →
         c.handlerId ≠ b.handlerId) →
       ∃ pre post, visitOrder env bindings ev ev.target = pre ++ post ∧
         a.handlerId ∈ pre ∧ b.handlerId ∉ pre) := by
  refine ⟨?_, findOrderedMatches_perm env.dom bindings,
    findOrderedMatches_sorted env.dom bindings, ?_, ?_⟩
  · rw [dispatchBindings, dispatchFrom_spec]
  · intro n k
    rw [findOrderedMatches]
    exact filter_insertionSort_specEq _ _
  · intro a b ha hma hmb hid
    obtain ⟨tail, htail⟩ := pathFrom_exists_cons env.dom ev.currentTarget ev.target
    refine ⟨(findOrderedMatches env.dom bindings ev.target).map
        (fun exb => exb.handlerId),
      tail.flatMap (fun n => (findOrderedMatches env.dom bindings n).map
        (fun exb => exb.handlerId)), ?_, ?_, ?_⟩
    · rw [visitOrder, htail, List.flatMap_cons]
    · exact List.mem_map_of_mem _ ((mem_findOrderedMatches _ _ _ a).2 ⟨ha, hma⟩)
    · intro hmem
      obtain ⟨c, hc, hcid⟩ := List.mem_map.1 hmem
      obtain ⟨hcb, hcm⟩ := (mem_findOrderedMatches _ _ _ c).1 hc
      exact hid c hcb hcm hcid

/-- Witness for C3: with `b1` (selector matching the target) and `b2`
(selector matching nothing) registered, `b1` is tried in a prefix of the
visit order that never tries `b2`. -/
theorem c3_witness : ∃ pre post,
    visitOrder envC [b1, b2] (mkEvent "a") (mkEvent "a").target =
      pre ++ post ∧ b1.handlerId ∈ pre ∧ b2.handlerId ∉ pre :=
  (c3_dispatch_order envC [b1, b2] (mkEvent "a")).2.2.2.2 b1 b2
    (by decide) (by decide) (by decide) (by decide)

/-- C4: every stroke that keeps a selector-validated proper-prefix match
alive restarts the pending timer to one second, and on expiry
`_onPendingTimeout` dispatches the snapshotted bindings against the
snapshotted event when a snapshot exists and otherwise replays the
suppressed events — in both branches clearing all pending state and
returning the engine to idle. -/
theorem c4_timer_and_expiry (env : Env) (s : KMState) (ev : KeyEvent)
    (hrep : s.replaying = false)
    (hk : env.keystrokeOf ev ≠ "")
    (hpart :
      (let m := findSequenceMatches s.bindings
        (s.sequence ++ [env.keystrokeOf ev])
       if m.part ≠ [] then findMatchingBindings env.dom ev m.part
       else m.part) ≠ []) :
    (processKeydownEvent env s ev).1.timer = some 1000 ∧
    (∀ s' : KMState,
      (onPendingTimeout env s').1 = clearPendingState s' ∧
      (onPendingTimeout env s').1.sequence = [] ∧
      (onPendingTimeout env s').1.events = [] ∧
      (onPendingTimeout env s').1.exactData = none ∧
      (onPendingTimeout env s').1.timer = none ∧
      (onPendingTimeout env s').2 =
        (match s'.exactData with
         | some d =>
           { prevented := (dispatchBindings env d.exact d.event).2
             invoked := (dispatchBindings env d.exact d.event).1
             replayed := [] }
         | none =>
           { prevented := false, invoked := []
             replayed := replayList s'.events })) := by
  constructor
  · have hp2 : (findSequenceMatches s.bindings
        (s.sequence ++ [env.keystrokeOf ev])).part ≠ [] := by
      intro h0
      apply hpart
      simp [h0]
    have hne : ¬((findSequenceMatches s.bindings
          (s.sequence ++ [env.keystrokeOf ev])).exact = [] ∧
        (findSequenceMatches s.bindings
          (s.sequence ++ [env.keystrokeOf ev])).part = []) :=
      fun h => hp2 h.2
    simp only [ne_eq, hp2, not_false_eq_true, if_true] at hpart
    simp [processKeydownEvent, hrep, hk, hne, hp2, hpart]
  · intro s'
    cases h : s'.exactData <;>
      simp [onPendingTimeout, h, clearPendingState]


/-- Witness for C4: pressing `'a'` with the two-stroke `b1` registered
restarts the timer to one second. -/
theorem c4_witness :
    (processKeydownEvent envC sW4 (mkEvent "a")).1.timer = some 1000 :=
  (c4_timer_and_expiry envC sW4 (mkEvent "a") rfl (by decide)
    (by
      have hsel : selMatchOnPath dom0 0 "#m" 0 = true := by
        rw [selMatchOnPath]
        simp [dom0]
      have hm : findSequenceMatches sW4.bindings (sW4.sequence ++ ["a"]) =
          { exact := [], part := [b1] } := by decide
      simp [envC, mkEvent, hm, b1, hsel, findMatchingBindings])).1

/-- C1 (amended): when a stroke yields no exact and no proper-prefix
match at all, the engine replays every suppressed event (in order, to the
original targets), clears all pending state, and leaves the current event
untouched; when proper-prefix matches exist but none of their selectors
matches the event path, the engine clears all pending state and leaves
the current event untouched but does NOT replay — the suppressed events
are dropped. -/
theorem c1_no_match_handling (env : Env) (s : KMState) (ev : KeyEvent)
    (hrep : s.replaying = false)
    (hk : env.keystrokeOf ev ≠ "") :
    ((findSequenceMatches s.bindings
        (s.sequence ++ [env.keystrokeOf ev])).exact = [] →
     (findSequenceMatches s.bindings
        (s.sequence ++ [env.keystrokeOf ev])).part = [] →
       processKeydownEvent env s ev =
         (clearPendingState s,
          { prevented := false, invoked := []
            replayed := replayList s.events })) ∧
    ((findSequenceMatches s.bindings
        (s.sequence ++ [env.keystrokeOf ev])).exact = [] →
     (findSequenceMatches s.bindings
        (s.sequence ++ [env.keystrokeOf ev])).part ≠ [] →
     findMatchingBindings env.dom ev
       (findSequenceMatches s.bindings
         (s.sequence ++ [env.keystrokeOf ev])).part = [] →
       processKeydownEvent env s ev = (clearPendingState s, noEffects)) := by
  constructor
  · intro h1 h2
    simp [processKeydownEvent, hrep, hk, h1, h2]
  · intro h1 h2 h3
    have hne : ¬((findSequenceMatches s.bindings
          (s.sequence ++ [env.keystrokeOf ev])).exact = [] ∧
        (findSequenceMatches s.bindings
          (s.sequence ++ [env.keystrokeOf ev])).part = []) :=
      fun h => h2 h.2
    simp [processKeydownEvent, hrep, hk, hne, h2, h3, h1,
      dispatchBindings_nil, noEffects]

/-- Witness for C1 (amended), first branch: a stroke matching nothing at
all replays the suppressed event and clears the pending state. -/
theorem c1_witness :
    processKeydownEvent envC sC1 (mkEvent "z") =
      (clearPendingState sC1,
       { prevented := false, invoked := []
         replayed := replayList sC1.events }) :=
  (c1_no_match_handling envC sC1 (mkEvent "z") rfl (by decide)).1
    (by decide) (by decide)

/-- Counterexample to C1 as stated: in the pending state `sC1` (one
suppressed event), the stroke `'b'` yields no exact match and no
proper-prefix match whose selector matches the event path — the claim
demands a replay of the suppressed events, but the code clears the
pending state and replays nothing. -/
theorem c1_counterexample :
    (findSequenceMatches sC1.bindings
      (sC1.sequence ++ [envC.keystrokeOf (mkEvent "b")])).exact = [] ∧
    (findSequenceMatches sC1.bindings
      (sC1.sequence ++ [envC.keystrokeOf (mkEvent "b")])).part ≠ [] ∧
    findMatchingBindings envC.dom (mkEvent "b")
      (findSequenceMatches sC1.bindings
        (sC1.sequence ++ [envC.keystrokeOf (mkEvent "b")])).part = [] ∧
    sC1.events ≠ [] ∧
    (processKeydownEvent envC sC1 (mkEvent "b")).2.replayed = [] ∧
    (processKeydownEvent envC sC1 (mkEvent "b")).2.replayed ≠
      replayList sC1.events := by
  have hsel : selMatchOnPath dom0 0 "#z" 0 = false := by
    rw [selMatchOnPath]
    simp [dom0]
  have hm : findSequenceMatches sC1.bindings
      (sC1.sequence ++ [envC.keystrokeOf (mkEvent "b")]) =
      { exact := [], part := [b2] } := by decide
  have hfm : findMatchingBindings envC.dom (mkEvent "b") [b2] = [] := by
    simp [findMatchingBindings, envC, mkEvent, b2, hsel]
  have hproc : processKeydownEvent envC sC1 (mkEvent "b") =
      (clearPendingState sC1, noEffects) := by
    have hne : ¬((findSequenceMatches sC1.bindings
          (sC1.sequence ++ [envC.keystrokeOf (mkEvent "b")])).exact = [] ∧
        (findSequenceMatches sC1.bindings
          (sC1.sequence ++ [envC.keystrokeOf (mkEvent "b")])).part = []) := by
      rw [hm]
      decide
    have hk : envC.keystrokeOf (mkEvent "b") ≠ "" := by decide
    have hrep : sC1.replaying = false := rfl
    simp [processKeydownEvent, hrep, hk, hne, hm, hfm,
      dispatchBindings_nil, noEffects]
  refine ⟨by rw [hm], by rw [hm]; decide, by rw [hm]; exact hfm,
    by decide, by rw [hproc]; rfl, by rw [hproc]; decide⟩

/-- C5 (amended): handler exceptions are NOT caught anywhere on the
dispatch path: if the first candidate tried at the event's target throws,
the exception aborts the walk (no later candidate is tried) and, in the
immediate-dispatch branch of `processKeydownEvent`, propagates out of the
engine to the host. -/
theorem c5_exception_propagation (env : EnvE) (bindings : List ExBinding)
    (ev : KeyEvent) (b : ExBinding) (rest : List ExBinding) (msg : String)
    (hord : findOrderedMatches env.dom bindings ev.target = b :: rest)
    (hthrow : env.hresE b.handlerId = Except.error msg) :
    dispatchBindingsE env bindings ev = Except.error msg ∧
    (∀ s : KMState, s.replaying = false → env.keystrokeOf ev ≠ "" →
      ¬((findSequenceMatches s.bindings
          (s.sequence ++ [env.keystrokeOf ev])).exact = [] ∧
        (findSequenceMatches s.bindings
          (s.sequence ++ [env.keystrokeOf ev])).part = []) →
      (if (findSequenceMatches s.bindings
            (s.sequence ++ [env.keystrokeOf ev])).part ≠ []
       then findMatchingBindings env.dom ev
         (findSequenceMatches s.bindings
           (s.sequence ++ [env.keystrokeOf ev])).part
       else (findSequenceMatches s.bindings
         (s.sequence ++ [env.keystrokeOf ev])).part) = [] →
      dispatchBindingsE env
        (findSequenceMatches s.bindings
          (s.sequence ++ [env.keystrokeOf ev])).exact ev =
        Except.error msg →
      processKeydownEventE env s ev = Except.error msg) := by
  constructor
  · rw [dispatchBindingsE, dispatchFromE, hord]
    simp [invokeHandlersE, hthrow]
  · intro s h1 h2 h3 h4 h5
    simp [processKeydownEventE, h1, h2, h3, h4, h5]

/-- Witness for C5 (amended): the always-throwing handler oracle makes
`dispatchBindingsE` propagate the exception. -/
theorem c5_witness :
    dispatchBindingsE envC5 [b5] (mkEvent "a") = Except.error "Whoops" :=
  (c5_exception_propagation envC5 [b5] (mkEvent "a") b5 [] "Whoops"
    (by decide) rfl).1

/-- Counterexample to C5 as stated: with the single binding `b5` whose
handler throws, the exception escapes `processKeydownEvent` (the claim —
and the source's own test "should safely process when an error occurs" —
requires it to be caught and dispatch to continue as if falsy). -/
theorem c5_counterexample :
    processKeydownEventE envC5 sC5 (mkEvent "a") =
      Except.error "Whoops" := by
  have hm : findSequenceMatches [b5] ["a"] =
      { exact := [b5], part := [] } := by decide
  have hdisp : dispatchBindingsE envC5 [b5] (mkEvent "a") =
      Except.error "Whoops" := by
    rw [dispatchBindingsE, dispatchFromE]
    have hord : findOrderedMatches envC5.dom [b5] (mkEvent "a").target =
        [b5] := by decide
    rw [hord]
    simp [invokeHandlersE, envC5]
  have hk2 : envC5.keystrokeOf (mkEvent "a") = "a" := rfl
  have hrep : sC5.replaying = false := rfl
  have hsq : sC5.sequence ++ ["a"] = ["a"] := rfl
  have hbd : sC5.bindings = [b5] := rfl
  simp [processKeydownEventE, hrep, hk2, hsq, hbd, hm, hdisp]

/-- C6 evidence: `cloneKeyboardEvent` does not preserve the `bubbles` and
`cancelable` flags — `event.bubbles || true` and
`event.cancelable || true` are identically `true`, so the non-bubbling,
non-cancelable suppressed event `evBub` is cloned as bubbling and
cancelable; the forced flags hold for every event.  (`_replayEvents` does
dispatch the clones on the original targets in original order —
`replayList` maps `cloneKeyboardEvent` over the buffer — but the clone
itself is not faithful.) -/
theorem c6_clone_not_faithful :
    evBub.bubbles = false ∧ evBub.cancelable = false ∧
    (cloneKeyboardEvent evBub).bubbles = true ∧
    (cloneKeyboardEvent evBub).cancelable = true ∧
    (∀ ev : KeyEvent, (cloneKeyboardEvent ev).bubbles = true ∧
      (cloneKeyboardEvent ev).cancelable = true) ∧
    replayList [evBub] = [cloneKeyboardEvent evBub] := by
  refine ⟨rfl, rfl, by decide, by decide, fun ev => ⟨?_, ?_⟩, rfl⟩
  · simp [cloneKeyboardEvent]
  · simp [cloneKeyboardEvent]

end Keymap
